import Mathlib

/-!
Verification of the levikno memory substrate and containers.

Shallow embedding of the memory pool (`LvnMemoryBlock` / `LvnMemoryBinding` /
`createObject` / `destroyObject`), the containers (`LvnVector`, `LvnArenaList`,
`LvnHashMap`) and the allocation primitives (`memAlloc` / `memFree`) of the
levikno framework, together with proofs and refutations of the specified
properties.

Machine integers (`size_t`, `uint64_t`) are modelled as `Nat` with explicit
`% 2^64` where overflow can occur.  Raw buffers are modelled at the value
level as lists; memory handed out by the raw allocator and not explicitly
constructed is modelled as zero-filled, which is the behaviour the container
code relies on (fresh hash-entry arrays are value-initialized, i.e. zeroed,
and the arena-list linear scans read the `taken` flags of never-written
slots).
-/

namespace Levikno

/-- Modulus of 64-bit unsigned arithmetic. -/
def U64 : Nat := 2 ^ 64

/-- The splitmix64 finalizer used by `LvnHash::operator()`, translated from
the header with 64-bit wrap-around made explicit. -/
def splitmix64 (k0 : Nat) : Nat :=
  let k1 := (k0 + 0x9E3779B97F4A7C15) % U64
  let k2 := ((k1 ^^^ (k1 >>> 30)) * 0xBF58476D1CE4E5B9) % U64
  let k3 := ((k2 ^^^ (k2 >>> 27)) * 0x94D049BB133111EB) % U64
  (k3 ^^^ (k3 >>> 31)) % U64

/-! ## LvnHashMap

Translation of `LvnHashMap<K, T>` (levikno.h) with `K = T = Nat`.
The entry array is a list whose length is `m_Capacity`; `m_Size` is a
separate field exactly as in the source.  The unbounded `while` loops of the
source (chain walk, linear probe) and the `insert`/`reserve` recursion are
driven by an explicit fuel argument; exhausted fuel leaves the map unchanged
(the corresponding C++ executions would not terminate, which no reachable
state triggers). -/

/-- One `LvnHashEntry<K, T>`; value-initialized entries are all zero. -/
structure HashEntry where
  data : Nat
  key : Nat
  nextIndex : Nat
  taken : Bool
  hasNext : Bool
deriving Repr, DecidableEq

/-- The zero-initialized entry produced by `memNew` with value construction. -/
def HashEntry.zero : HashEntry := ⟨0, 0, 0, false, false⟩

/-- State of an `LvnHashMap<Nat, Nat>`: entry array and live-entry counter.
The capacity `m_Capacity` always equals the length of the allocated entry
array in the source, so it is derived. -/
structure HMap where
  entries : List HashEntry
  size : Nat
deriving Repr, DecidableEq

/-- Capacity of the map (`m_Capacity`, the entry-array length). -/
def HMap.capacity (m : HMap) : Nat := m.entries.length

/-- A default-constructed `LvnHashMap`. -/
def hmEmpty : HMap := ⟨[], 0⟩

/-- Read entry `i` (out-of-range reads yield the zero entry; they only happen
after fuel exhaustion or in unreachable states). -/
def hmGet (es : List HashEntry) (i : Nat) : HashEntry := es.getD i HashEntry.zero

/-- Update entry `i` in place. -/
def hmSet (es : List HashEntry) (i : Nat) (f : HashEntry → HashEntry) : List HashEntry :=
  es.set i (f (hmGet es i))

/-- The chain walk shared by `insert`, `erase`, `at` and `contains`:
starting from entry `idx`, while the current entry has a `nextIndex` link,
advance and test the advanced entry's key.  Returns `.inl i` when the key is
found at entry `i`, and `.inr t` with the last visited (tail) index
otherwise. -/
def hmFindChain (es : List HashEntry) (key : Nat) : Nat → Nat → Sum Nat Nat
  | 0, idx => Sum.inr idx
  | fuel + 1, idx =>
    let e := hmGet es idx
    if e.hasNext then
      let idx2 := e.nextIndex
      if (hmGet es idx2).key = key then Sum.inl idx2
      else hmFindChain es key fuel idx2
    else Sum.inr idx

/-- The linear probe of `insert`: scan forward (wrapping `mod` capacity) from
`idx` for an entry that is not taken. -/
def hmProbe (es : List HashEntry) (cap : Nat) : Nat → Nat → Option Nat
  | 0, _ => none
  | fuel + 1, idx =>
    if (hmGet es idx).taken then hmProbe es cap fuel ((idx + 1) % cap)
    else some idx

/-- Calls into the mutually recursive part of the hash map: `insert`,
`reserve`, and `reserve`'s re-insertion loop over the old entry array. -/
inductive HmCall where
  | ins (m : HMap) (key value : Nat)
  | res (m : HMap) (newSize : Nat)
  | reins (m : HMap) (old : List HashEntry)

/-- The straight-line part of `LvnHashMap::insert` after the rehash check:
either overwrite the home slot, overwrite a chain hit, or claim the first
untaken slot found by linear probing from the chain tail and link it onto
the tail (unless the tail now holds the same key, i.e. the claimed slot is
the tail itself). -/
def hmInsBody (m : HMap) (key value : Nat) : HMap :=
  let cap := m.capacity
  let idx0 := splitmix64 key % cap
  let e0 := hmGet m.entries idx0
  if e0.taken ∧ e0.key = key then
    { m with entries := hmSet m.entries idx0 (fun e => { e with data := value }) }
  else
    match hmFindChain m.entries key cap idx0 with
    | Sum.inl hitIdx =>
      { m with entries := hmSet m.entries hitIdx (fun e => { e with data := value }) }
    | Sum.inr tailIdx =>
      match hmProbe m.entries cap cap tailIdx with
      | none => m
      | some freeIdx =>
        let es1 := hmSet m.entries freeIdx
          (fun e => { e with key := key, data := value, taken := true })
        if (hmGet es1 tailIdx).key ≠ key then
          ⟨hmSet es1 tailIdx (fun e => { e with nextIndex := freeIdx, hasNext := true }),
           m.size + 1⟩
        else ⟨es1, m.size + 1⟩

/-- Executes `LvnHashMap::insert` / `LvnHashMap::reserve`, fuel-bounded.
`insert` first rehashes when `m_Size * 10 >= m_Capacity * 7` (doubling the
capacity, or starting at 8), then runs `hmInsBody`.  `reserve` returns
unchanged when `newSize <= m_Size`, otherwise allocates a zeroed array,
resets `m_Size`, and re-inserts every taken entry of the old array. -/
def hmExec : Nat → HmCall → HMap
  | 0, c =>
    match c with
    | .ins m _ _ => m
    | .res m _ => m
    | .reins m _ => m
  | fuel + 1, c =>
    match c with
    | .ins m key value =>
      hmInsBody
        (if m.size * 10 ≥ m.capacity * 7 then
          hmExec fuel (.res m (if m.capacity = 0 then 8 else m.capacity * 2))
        else m) key value
    | .res m newSize =>
      if newSize ≤ m.size then m
      else hmExec fuel (.reins ⟨List.replicate newSize HashEntry.zero, 0⟩ m.entries)
    | .reins m old =>
      match old with
      | [] => m
      | e :: rest =>
        if e.taken then hmExec fuel (.reins (hmExec fuel (.ins m e.key e.data)) rest)
        else hmExec fuel (.reins m rest)

/-- `LvnHashMap::insert(key, value)` with the given fuel. -/
def hmInsertF (fuel : Nat) (m : HMap) (key value : Nat) : HMap :=
  hmExec fuel (.ins m key value)

/-- `LvnHashMap::erase_recursive(index)`: copies the next chained entry's
key, link, flags and payload into the current entry and recurses; the last
entry of the chain is cleared and reports `true`, upon which its predecessor
drops its `nextIndex` link.  Note that `m_Size` is never touched. -/
def hmEraseRecF : Nat → List HashEntry → Nat → List HashEntry × Bool
  | 0, es, _ => (es, false)
  | fuel + 1, es, idx =>
    let e := hmGet es idx
    if e.hasNext then
      let ni := e.nextIndex
      let en := hmGet es ni
      let es1 := es.set idx
        { data := en.data, key := en.key, nextIndex := en.nextIndex,
          taken := en.taken, hasNext := en.hasNext }
      let r := hmEraseRecF fuel es1 ni
      if r.2 then
        (hmSet r.1 idx (fun e2 => { e2 with nextIndex := 0, hasNext := false }), false)
      else (r.1, false)
    else
      (es.set idx { (hmGet es idx) with key := 0, nextIndex := 0, taken := false, hasNext := false },
       true)

/-- `LvnHashMap::erase(key)`: no-op on an empty map; otherwise tests the home
slot's key (without consulting `taken`), then walks the chain, and shifts the
chain via `erase_recursive` at the hit.  `m_Size` is not modified on any
path. -/
def hmEraseF (fuel : Nat) (m : HMap) (key : Nat) : HMap :=
  if m.size = 0 then m
  else
    let cap := m.capacity
    let idx0 := splitmix64 key % cap
    if (hmGet m.entries idx0).key = key then
      { m with entries := (hmEraseRecF fuel m.entries idx0).1 }
    else
      match hmFindChain m.entries key cap idx0 with
      | Sum.inl hitIdx => { m with entries := (hmEraseRecF fuel m.entries hitIdx).1 }
      | Sum.inr _ => m

/-- `LvnHashMap::contains(key)`: false on an empty map; otherwise compares
the home slot's key field (without consulting `taken`) and then walks the
chain. -/
def hmContains (m : HMap) (key : Nat) : Bool :=
  if m.size = 0 then false
  else
    let cap := m.capacity
    let idx0 := splitmix64 key % cap
    if key = (hmGet m.entries idx0).key then true
    else
      match hmFindChain m.entries key cap idx0 with
      | Sum.inl _ => true
      | Sum.inr _ => false

/-- `LvnHashMap::at(key)`: inserts a default value when the map is empty,
returns the home-slot or chain hit, and otherwise inserts a default value
and retries — a read with a write side effect. -/
def hmAtF : Nat → HMap → Nat → Nat × HMap
  | 0, m, _ => (0, m)
  | fuel + 1, m, key =>
    let m := if m.size = 0 then hmInsertF fuel m key 0 else m
    let cap := m.capacity
    let idx0 := splitmix64 key % cap
    let e0 := hmGet m.entries idx0
    if e0.taken ∧ e0.key = key then (e0.data, m)
    else
      match hmFindChain m.entries key cap idx0 with
      | Sum.inl hitIdx => ((hmGet m.entries hitIdx).data, m)
      | Sum.inr _ => hmAtF fuel (hmInsertF fuel m key 0) key

/-- One map operation of a test sequence. -/
inductive HmOp where
  | ins (k v : Nat)
  | del (k : Nat)
  | rd (k : Nat)
deriving Repr, DecidableEq

/-- Fuel amply covering every concrete run in this file. -/
def hmFuel : Nat := 100

/-- Applies one operation to the map. -/
def hmStep (m : HMap) : HmOp → HMap
  | .ins k v => hmInsertF hmFuel m k v
  | .del k => hmEraseF hmFuel m k
  | .rd k => (hmAtF hmFuel m k).2

/-- Runs a sequence of operations from the default-constructed map. -/
def hmRun (ops : List HmOp) : HMap := ops.foldl hmStep hmEmpty

/-- Number of entries with the `taken` flag set. -/
def hmTakenCount (m : HMap) : Nat := m.entries.countP (·.taken)

/-- Length is preserved by `hmSet`. -/
theorem hmSet_length (es : List HashEntry) (i : Nat) (f : HashEntry → HashEntry) :
    (hmSet es i f).length = es.length := List.length_set es i _

/-- C4: evaluation of the hash map at the failing inputs.  After `insert(1, 100)`,
`contains(0)` reports `true` although `0` was never inserted (the home-slot check
compares the key field of a vacant zero-initialized entry without consulting
`taken`).  After inserting keys `4`, `5`, `10` — which all hash to home slot 2
mod 8 and therefore form one chain — `erase(4)` corrupts the chain (each shifted
entry receives its successor's `nextIndex`, bypassing the slot that now holds the
successor), and `contains(10)` reports `false` although `10` was inserted and
never erased, while `contains(5)` still reports `true`. -/
theorem c4_contains_divergence :
    hmContains (hmRun [.ins 1 100]) 0 = true ∧
    hmContains (hmRun [.ins 4 40, .ins 5 50, .ins 10 100, .del 4]) 10 = false ∧
    hmContains (hmRun [.ins 4 40, .ins 5 50, .ins 10 100, .del 4]) 5 = true := by
  decide

/-- C5 counterexample: inserting the six distinct keys `1..6` into a fresh map
yields `size = 6` with `capacity = 8`, a load factor of `0.75 > 0.7`
immediately after the insert returns. -/
theorem c5_counterexample :
    (hmRun [.ins 1 10, .ins 2 20, .ins 3 30, .ins 4 40, .ins 5 50, .ins 6 60]).size * 10 >
      (hmRun [.ins 1 10, .ins 2 20, .ins 3 30, .ins 4 40, .ins 5 50, .ins 6 60]).capacity * 7 := by
  decide

/-- The straight-line insert body preserves the capacity. -/
theorem hmInsBody_capacity (m : HMap) (k v : Nat) :
    (hmInsBody m k v).capacity = m.capacity := by
  simp only [hmInsBody]
  split
  · simp [HMap.capacity, hmSet_length]
  · split
    · simp [HMap.capacity, hmSet_length]
    · split
      · rfl
      · split
        · simp [HMap.capacity, hmSet_length]
        · simp [HMap.capacity, hmSet_length]

/-- The straight-line insert body grows the size by at most one. -/
theorem hmInsBody_size (m : HMap) (k v : Nat) :
    (hmInsBody m k v).size = m.size ∨ (hmInsBody m k v).size = m.size + 1 := by
  simp only [hmInsBody]
  split
  · exact Or.inl rfl
  · split
    · exact Or.inl rfl
    · split
      · exact Or.inl rfl
      · split
        · exact Or.inr rfl
        · exact Or.inr rfl

/-- C5 (amended): when the load factor is below 0.7 before an insert
(`size * 10 < capacity * 7`, so the rehash guard does not fire), the insert
leaves the capacity unchanged and the resulting size satisfies
`size' * 10 < capacity * 7 + 10`: the load factor after an insert is below
`0.7 + 1/capacity`, and may exceed 0.7 itself. -/
theorem c5_load_factor_after_insert (fuel : Nat) (m : HMap) (k v : Nat)
    (h : m.size * 10 < m.capacity * 7) :
    (hmInsertF fuel m k v).capacity = m.capacity ∧
    (hmInsertF fuel m k v).size * 10 < m.capacity * 7 + 10 := by
  cases fuel with
  | zero =>
    have h0 : hmInsertF 0 m k v = m := rfl
    rw [h0]
    exact ⟨rfl, by omega⟩
  | succ fuel =>
    have hg : hmInsertF (fuel + 1) m k v = hmInsBody m k v := by
      simp only [hmInsertF, hmExec]
      rw [if_neg (by omega)]
    rw [hg, hmInsBody_capacity]
    refine ⟨rfl, ?_⟩
    rcases hmInsBody_size m k v with h1 | h1 <;> omega

/-- C5 witness: a concrete state below the threshold, on which the amended
bound is obtained from the theorem. -/
theorem c5_load_factor_after_insert_witness :
    (hmRun [.ins 1 10]).size * 10 < (hmRun [.ins 1 10]).capacity * 7 ∧
    ((hmInsertF hmFuel (hmRun [.ins 1 10]) 2 20).capacity = (hmRun [.ins 1 10]).capacity ∧
      (hmInsertF hmFuel (hmRun [.ins 1 10]) 2 20).size * 10 <
        (hmRun [.ins 1 10]).capacity * 7 + 10) :=
  ⟨by decide, c5_load_factor_after_insert hmFuel (hmRun [.ins 1 10]) 2 20 (by decide)⟩

/-- C9: `erase` never modifies `m_Size`, on every path and in every state —
the live-entry counter is never decremented; concretely, after inserting key
`4` and erasing it, `size()` still reports 1 while no entry is taken. -/
theorem c9_erase_preserves_size :
    (∀ (fuel : Nat) (m : HMap) (k : Nat), (hmEraseF fuel m k).size = m.size) ∧
    ((hmRun [.ins 4 40, .del 4]).size = 1 ∧ hmTakenCount (hmRun [.ins 4 40, .del 4]) = 0) := by
  refine ⟨fun fuel m k => ?_, by decide, by decide⟩
  simp only [hmEraseF]
  split
  · rfl
  · split
    · rfl
    · split <;> rfl

/-! ## LvnVector

Translation of `LvnVector<T>` (levikno.h) with `T = Nat` at the value level:
`m_Data`'s constructed prefix `[0, m_Size)` is the list `data` (so `m_Size`
is its length) and `m_Capacity` is the separate field `cap`.  The shifting
loops of `insert_index` and `erase_index` operate on the constructed prefix
and are expressed as structural recursions over it. -/

/-- State of an `LvnVector<Nat>`. -/
structure VecM where
  data : List Nat
  cap : Nat
deriving Repr, DecidableEq

/-- A default-constructed vector. -/
def vecEmpty : VecM := ⟨[], 0⟩

/-- The live element count `m_Size`. -/
def VecM.size (m : VecM) : Nat := m.data.length

/-- `LvnVector::reserve(n)`: no-op when `n <= m_Capacity`; otherwise the
constructed elements are copied into a fresh buffer of exactly `n` slots. -/
def vecReserve (m : VecM) (n : Nat) : VecM :=
  if n ≤ m.cap then m else ⟨m.data, n⟩

/-- `LvnVector::resize(n)`: grows via `reserve` and default-constructs the
new tail, or destructs the trimmed tail; `m_Size` becomes `n`. -/
def vecResize (m : VecM) (n : Nat) : VecM :=
  if m.data.length < n then
    let m1 := vecReserve m n
    ⟨m1.data ++ List.replicate (n - m1.data.length) 0, m1.cap⟩
  else ⟨m.data.take n, m.cap⟩

/-- `LvnVector::push_back(v)`: `resize(m_Size + 1)` followed by assigning
the last slot. -/
def vecPushBack (m : VecM) (v : Nat) : VecM :=
  let m1 := vecResize m (m.data.length + 1)
  ⟨m1.data.set (m1.data.length - 1) v, m1.cap⟩

/-- The downward shift loop of `LvnVector::insert_index` (elements
`[i, m_Size)` are move-constructed one slot to the right) followed by the
construction of `v` at slot `i`, expressed on the constructed prefix. -/
def listInsertAt : List Nat → Nat → Nat → List Nat
  | l, 0, v => v :: l
  | [], _ + 1, v => [v]
  | x :: xs, i + 1, v => x :: listInsertAt xs i v

/-- `LvnVector::insert_index(i, v)` (single element): `reserve(m_Size + 1)`,
shift right from `i`, construct `v` at `i`. -/
def vecInsertIdx (m : VecM) (i v : Nat) : VecM :=
  let m1 := vecReserve m (m.data.length + 1)
  ⟨listInsertAt m1.data i v, m1.cap⟩

/-- The leftward copy loop of `LvnVector::erase_index`: elements
`[i + 1, m_Size)` are copy-assigned one slot to the left and the last slot
is destructed. -/
def listEraseAt : List Nat → Nat → List Nat
  | [], _ => []
  | _ :: xs, 0 => xs
  | x :: xs, i + 1 => x :: listEraseAt xs i

/-- `LvnVector::erase_index(i)`. -/
def vecEraseIdx (m : VecM) (i : Nat) : VecM := ⟨listEraseAt m.data i, m.cap⟩

/-- One vector operation of a test sequence. -/
inductive VecOp where
  | push (v : Nat)
  | insi (i v : Nat)
  | eras (i : Nat)
deriving Repr, DecidableEq

/-- Applies one operation to the vector. -/
def vecStep (m : VecM) : VecOp → VecM
  | .push v => vecPushBack m v
  | .insi i v => vecInsertIdx m i v
  | .eras i => vecEraseIdx m i

/-- Runs a sequence of operations from the default-constructed vector. -/
def vecRun (ops : List VecOp) : VecM := ops.foldl vecStep vecEmpty

/-- Reference insertion, following the spec's words: insert shifts the tail
right by one and places the new element at position `i`. -/
def specInsertIdx (l : List Nat) (i v : Nat) : List Nat :=
  l.take i ++ v :: l.drop i

/-- Reference erasure, following the spec's words: erase shifts all trailing
elements left by one. -/
def specEraseIdx (l : List Nat) (i : Nat) : List Nat :=
  l.take i ++ l.drop (i + 1)

/-- Reference semantics of one operation on the plain element sequence. -/
def refStep (l : List Nat) : VecOp → List Nat
  | .push v => l ++ [v]
  | .insi i v => specInsertIdx l i v
  | .eras i => specEraseIdx l i

/-- Reference semantics of an operation sequence. -/
def refRun (ops : List VecOp) : List Nat := ops.foldl refStep []

/-- In-range check for one operation against the current element count. -/
def opOk (n : Nat) : VecOp → Bool
  | .push _ => true
  | .insi i _ => decide (i ≤ n)
  | .eras i => decide (i < n)

/-- Element count after one operation. -/
def refLen (n : Nat) : VecOp → Nat
  | .push _ => n + 1
  | .insi _ _ => n + 1
  | .eras _ => n - 1

/-- All indices of the sequence are in range at their point of use. -/
def validFrom : Nat → List VecOp → Bool
  | _, [] => true
  | n, op :: rest => opOk n op && validFrom (refLen n op) rest

/-- Number of element insertions (push and insert) in a sequence. -/
def insCount (ops : List VecOp) : Nat :=
  ops.countP (fun op => match op with | .eras _ => false | _ => true)

/-- Number of erasures in a sequence. -/
def delCount (ops : List VecOp) : Nat :=
  ops.countP (fun op => match op with | .eras _ => true | _ => false)

/-- Setting the slot just past the constructed prefix writes the pushed
element. -/
theorem list_set_append_last (l : List Nat) (a v : Nat) :
    (l ++ [a]).set l.length v = l ++ [v] := by
  induction l with
  | nil => rfl
  | cons x xs ih => simp [List.set, ih]

/-- The shift-right loop inserts at position `i` of the constructed prefix. -/
theorem listInsertAt_eq_spec (l : List Nat) (i v : Nat) (h : i ≤ l.length) :
    listInsertAt l i v = specInsertIdx l i v := by
  induction l generalizing i with
  | nil =>
    have h0 : i = 0 := by simpa using h
    subst h0
    rfl
  | cons x xs ih =>
    cases i with
    | zero => rfl
    | succ j =>
      simp only [listInsertAt, specInsertIdx, List.take, List.drop, List.cons_append,
        List.cons.injEq, true_and]
      exact ih j (by simpa using h)

/-- The copy-left loop erases position `i` of the constructed prefix. -/
theorem listEraseAt_eq_spec (l : List Nat) (i : Nat) (h : i < l.length) :
    listEraseAt l i = specEraseIdx l i := by
  induction l generalizing i with
  | nil => simp at h
  | cons x xs ih =>
    cases i with
    | zero => rfl
    | succ j =>
      simp only [listEraseAt, specEraseIdx, List.take, List.drop, List.cons_append,
        List.cons.injEq, true_and]
      exact ih j (by simpa using h)

/-- `push_back` appends the element to the constructed prefix. -/
theorem vecPushBack_data (m : VecM) (v : Nat) :
    (vecPushBack m v).data = m.data ++ [v] := by
  simp only [vecPushBack, vecResize, vecReserve]
  rw [if_pos (Nat.lt_succ_self _)]
  split <;>
    simp [Nat.sub_self, List.replicate, list_set_append_last m.data 0 v]

/-- `insert_index` realizes the reference insertion. -/
theorem vecInsertIdx_data (m : VecM) (i v : Nat) (h : i ≤ m.size) :
    (vecInsertIdx m i v).data = specInsertIdx m.data i v := by
  simp only [vecInsertIdx, vecReserve]
  split <;> exact listInsertAt_eq_spec m.data i v h

/-- `erase_index` realizes the reference erasure. -/
theorem vecEraseIdx_data (m : VecM) (i : Nat) (h : i < m.size) :
    (vecEraseIdx m i).data = specEraseIdx m.data i :=
  listEraseAt_eq_spec m.data i h

/-- Length of the reference insertion. -/
theorem specInsertIdx_length (l : List Nat) (i v : Nat) (h : i ≤ l.length) :
    (specInsertIdx l i v).length = l.length + 1 := by
  simp [specInsertIdx]
  omega

/-- Length of the reference erasure. -/
theorem specEraseIdx_length (l : List Nat) (i : Nat) (h : i < l.length) :
    (specEraseIdx l i).length = l.length - 1 := by
  simp [specEraseIdx]
  omega

/-- Each valid step takes the vector's constructed prefix to the reference
sequence's next state, with the expected element count. -/
theorem vecStep_data (m : VecM) (op : VecOp) (h : opOk m.size op = true) :
    (vecStep m op).data = refStep m.data op := by
  cases op with
  | push v => exact vecPushBack_data m v
  | insi i v => exact vecInsertIdx_data m i v (by simpa [opOk] using h)
  | eras i => exact vecEraseIdx_data m i (by simpa [opOk] using h)

/-- Length bookkeeping for one reference step. -/
theorem refStep_length (l : List Nat) (op : VecOp) (h : opOk l.length op = true) :
    (refStep l op).length = refLen l.length op := by
  cases op with
  | push v => simp [refStep, refLen]
  | insi i v => exact specInsertIdx_length l i v (by simpa [opOk] using h)
  | eras i => exact specEraseIdx_length l i (by simpa [opOk] using h)

/-- Auxiliary induction for C7, generalized over the start state. -/
theorem c7_aux (ops : List VecOp) : ∀ (m : VecM), validFrom m.size ops = true →
    (ops.foldl vecStep m).data = ops.foldl refStep m.data ∧
    (ops.foldl vecStep m).size + delCount ops = m.size + insCount ops := by
  induction ops with
  | nil => exact fun m _ => ⟨rfl, by simp [delCount, insCount]⟩
  | cons op rest ih =>
    intro m hv
    simp only [validFrom, Bool.and_eq_true] at hv
    obtain ⟨h1, h2⟩ := hv
    have hdata := vecStep_data m op h1
    have hsz : (vecStep m op).size = refLen m.size op := by
      have := refStep_length m.data op h1
      simp only [VecM.size] at *
      rw [hdata, this]
    have hrest := ih (vecStep m op) (by rw [hsz]; exact h2)
    refine ⟨by rw [List.foldl_cons, List.foldl_cons, hrest.1, hdata], ?_⟩
    have hc := hrest.2
    rw [hsz] at hc
    cases op with
    | push v =>
      have hd : delCount (VecOp.push v :: rest) = delCount rest := by
        simp [delCount, List.countP_cons]
      have hi : insCount (VecOp.push v :: rest) = insCount rest + 1 := by
        simp [insCount, List.countP_cons]
      rw [List.foldl_cons, hd, hi]
      simp only [refLen] at hc
      omega
    | insi i v =>
      have hd : delCount (VecOp.insi i v :: rest) = delCount rest := by
        simp [delCount, List.countP_cons]
      have hi : insCount (VecOp.insi i v :: rest) = insCount rest + 1 := by
        simp [insCount, List.countP_cons]
      rw [List.foldl_cons, hd, hi]
      simp only [refLen] at hc
      omega
    | eras i =>
      have hlt : i < m.size := by simpa [opOk] using h1
      have hd : delCount (VecOp.eras i :: rest) = delCount rest + 1 := by
        simp [delCount, List.countP_cons]
      have hi : insCount (VecOp.eras i :: rest) = insCount rest := by
        simp [insCount, List.countP_cons]
      rw [List.foldl_cons, hd, hi]
      simp only [refLen] at hc
      omega

/-- C7: for every sequence of `push_back` / `insert_index` / `erase_index`
operations with in-range indices, the vector's elements `[0, size)` are
exactly the reference sequence (insert shifts the tail right, erase shifts
the trailing elements left), and the final `size()` equals the number of
insertions minus the number of erasures. -/
theorem c7_vector_roundtrip (ops : List VecOp) (h : validFrom 0 ops = true) :
    (vecRun ops).data = refRun ops ∧
    (vecRun ops).size + delCount ops = insCount ops := by
  have := c7_aux ops vecEmpty (by simpa [vecEmpty, VecM.size] using h)
  simpa [vecRun, refRun, vecEmpty, VecM.size] using this

/-- C7 witness: a concrete valid sequence, run through the theorem. -/
theorem c7_vector_roundtrip_witness :
    validFrom 0 [VecOp.push 5, VecOp.push 7, VecOp.insi 1 9, VecOp.eras 0] = true ∧
    ((vecRun [VecOp.push 5, VecOp.push 7, VecOp.insi 1 9, VecOp.eras 0]).data =
        refRun [VecOp.push 5, VecOp.push 7, VecOp.insi 1 9, VecOp.eras 0] ∧
      (vecRun [VecOp.push 5, VecOp.push 7, VecOp.insi 1 9, VecOp.eras 0]).size +
          delCount [VecOp.push 5, VecOp.push 7, VecOp.insi 1 9, VecOp.eras 0] =
        insCount [VecOp.push 5, VecOp.push 7, VecOp.insi 1 9, VecOp.eras 0]) :=
  ⟨by decide, c7_vector_roundtrip [VecOp.push 5, VecOp.push 7, VecOp.insi 1 9, VecOp.eras 0]
    (by decide)⟩

/-! ## LvnArenaList

Translation of `LvnArenaList<T>` (levikno.h) with `T = Nat`.  The node array
`m_Nodes` and the free-index array `m_FreeNodes` are lists whose lengths are
`m_Capacity` and `m_FreeCapacity`; `m_Size`, `m_FreeSize`, `m_Head` and
`m_Tail` are separate fields exactly as in the source.  Array cells obtained
from the raw allocator without construction are modelled zero-filled, which
is the behaviour the linear scans over the `taken` flags rely on. -/

/-- One `LvnLinkedIndexNode<Nat>`. -/
structure ANode where
  next : Nat
  prev : Nat
  hasPrev : Bool
  hasNext : Bool
  taken : Bool
  value : Nat
deriving Repr, DecidableEq

/-- A zero-filled node. -/
def ANode.zero : ANode := ⟨0, 0, false, false, false, 0⟩

/-- State of an `LvnArenaList<Nat>`. -/
structure AList where
  nodes : List ANode
  free : List Nat
  freeSize : Nat
  size : Nat
  head : Nat
  tail : Nat
deriving Repr, DecidableEq

/-- A default-constructed arena list. -/
def alEmpty : AList := ⟨[], [], 0, 0, 0, 0⟩

/-- The node-array capacity `m_Capacity`. -/
def AList.cap (s : AList) : Nat := s.nodes.length

/-- Read node `i`. -/
def anGet (ns : List ANode) (i : Nat) : ANode := ns.getD i ANode.zero

/-- Update node `i` in place. -/
def anSet (ns : List ANode) (i : Nat) (f : ANode → ANode) : List ANode :=
  ns.set i (f (anGet ns i))

/-- `destruct_at`: destructs the value and clears links and flags. -/
def anClear (n : ANode) : ANode :=
  { n with next := 0, prev := 0, hasPrev := false, hasNext := false, taken := false }

/-- `LvnArenaList::reserve(n)`: copies the existing `m_Capacity` nodes and
the first `m_FreeSize` free indices into fresh (unconstructed, modelled
zero-filled) arrays of `n` cells each. -/
def alReserve (s : AList) (n : Nat) : AList :=
  if n ≤ s.cap then s
  else
    { s with
      nodes := s.nodes ++ List.replicate (n - s.nodes.length) ANode.zero,
      free := s.free.take s.freeSize ++ List.replicate (n - s.freeSize) 0 }

/-- The traversal loop of `node_index` / `at_index`: `index` iterations of
"advance to `next` when `hasNext`". -/
def alWalk (ns : List ANode) : Nat → Nat → Nat
  | 0, ni => ni
  | c + 1, ni =>
    let e := anGet ns ni
    alWalk ns c (if e.hasNext then e.next else ni)

/-- The linear fallback scan for an untaken node, in array order. -/
def alFindUntaken (ns : List ANode) : Option Nat :=
  (List.range ns.length).find? (fun i => !(anGet ns i).taken)

/-- `LvnArenaList::push_back(v)`.  The empty path claims slot 0 directly
without consulting the free-index array; the other paths pop the top free
index or scan linearly. -/
def alPushBack (s : AList) (v : Nat) : AList :=
  if s.size = 0 then
    let s1 := alReserve s (s.size + 1)
    let ns1 := anSet s1.nodes 0 (fun n => { n with value := v, taken := true })
    { s1 with head := 0, tail := 0, nodes := ns1, size := s1.size + 1 }
  else
    let s1 := if s.size ≥ s.cap then alReserve s (s.size + 1) else s
    if s1.freeSize ≠ 0 then
      let ni := s1.free.getD (s1.freeSize - 1) 0
      let ns1 := anSet s1.nodes ni
        (fun n => { n with value := v, prev := s1.tail, hasPrev := true, taken := true })
      let ns2 := anSet ns1 s1.tail (fun n => { n with next := ni, hasNext := true })
      { s1 with nodes := ns2, tail := ni, size := s1.size + 1, freeSize := s1.freeSize - 1 }
    else
      match alFindUntaken s1.nodes with
      | some i =>
        let ns1 := anSet s1.nodes i
          (fun n => { n with value := v, prev := s1.tail, hasPrev := true, taken := true })
        let ns2 := anSet ns1 s1.tail (fun n => { n with next := i, hasNext := true })
        { s1 with nodes := ns2, tail := i, size := s1.size + 1 }
      | none => s1

/-- `LvnArenaList::push_front(v)`, mirror image of `push_back`. -/
def alPushFront (s : AList) (v : Nat) : AList :=
  if s.size = 0 then
    let s1 := alReserve s (s.size + 1)
    let ns1 := anSet s1.nodes 0 (fun n => { n with value := v, taken := true })
    { s1 with head := 0, tail := 0, nodes := ns1, size := s1.size + 1 }
  else
    let s1 := if s.size ≥ s.cap then alReserve s (s.size + 1) else s
    if s1.freeSize ≠ 0 then
      let ni := s1.free.getD (s1.freeSize - 1) 0
      let ns1 := anSet s1.nodes ni
        (fun n => { n with value := v, next := s1.head, hasNext := true, taken := true })
      let ns2 := anSet ns1 s1.head (fun n => { n with prev := ni, hasPrev := true })
      { s1 with nodes := ns2, head := ni, size := s1.size + 1, freeSize := s1.freeSize - 1 }
    else
      match alFindUntaken s1.nodes with
      | some i =>
        let ns1 := anSet s1.nodes i
          (fun n => { n with value := v, next := s1.head, hasNext := true, taken := true })
        let ns2 := anSet ns1 s1.head (fun n => { n with prev := i, hasPrev := true })
        { s1 with nodes := ns2, head := i, size := s1.size + 1 }
      | none => s1

/-- `LvnArenaList::pop_back()`.  Note that the single-element path resets
`m_Head`/`m_Tail` and clears the node without returning its index to the
free-index array. -/
def alPopBack (s : AList) : AList :=
  if s.size = 0 then s
  else if s.size = 1 then
    { s with nodes := anSet s.nodes s.head anClear, head := 0, tail := 0, size := s.size - 1 }
  else
    let s1 := { s with free := s.free.set s.freeSize s.tail, freeSize := s.freeSize + 1 }
    let nd := anGet s1.nodes s1.tail
    let ns1 := anSet s1.nodes nd.prev (fun p => { p with next := 0, hasNext := false })
    let ns2 := anSet ns1 s.tail anClear
    { s1 with nodes := ns2, tail := nd.prev, size := s.size - 1 }

/-- `LvnArenaList::pop_front()`, mirror image of `pop_back` (with the same
single-element free-index leak). -/
def alPopFront (s : AList) : AList :=
  if s.size = 0 then s
  else if s.size = 1 then
    { s with nodes := anSet s.nodes s.head anClear, head := 0, tail := 0, size := s.size - 1 }
  else
    let s1 := { s with free := s.free.set s.freeSize s.head, freeSize := s.freeSize + 1 }
    let nd := anGet s1.nodes s1.head
    let ns1 := anSet s1.nodes nd.next (fun nx => { nx with prev := 0, hasPrev := false })
    let ns2 := anSet ns1 s.head anClear
    { s1 with nodes := ns2, head := nd.next, size := s.size - 1 }

/-- `LvnArenaList::erase_index(i)`: ends delegate to the pops; a mid-list
erase relinks both neighbours, records the slot in the free-index array and
clears it. -/
def alEraseIdx (s : AList) (index : Nat) : AList :=
  if index = 0 then alPopFront s
  else if index = s.size - 1 then alPopBack s
  else
    let ni := alWalk s.nodes index s.head
    let nd := anGet s.nodes ni
    let s1 :=
      if nd.hasNext then
        { s with nodes := anSet s.nodes nd.next (fun nx => { nx with prev := nd.prev }) }
      else s
    let s2 :=
      if nd.hasPrev then
        { s1 with nodes := anSet s1.nodes nd.prev (fun pv => { pv with next := nd.next }) }
      else s1
    let s3 := { s2 with free := s2.free.set s2.freeSize ni, freeSize := s2.freeSize + 1 }
    { s3 with nodes := anSet s3.nodes ni anClear, size := s.size - 1 }

/-- `LvnArenaList::insert_index(i, v)`: ends delegate to the pushes; a
mid-list insert copies the node currently at position `i` into a reused or
scanned slot, then overwrites position `i`'s node with the new value and
links it to the copy.  The free-index path does not update the `prev` link
of the copied node's successor; the linear-scan path does. -/
def alInsertIdx (s : AList) (index : Nat) (v : Nat) : AList :=
  if index = 0 then alPushFront s v
  else if index = s.size then alPushBack s v
  else
    let s0 := if s.size ≥ s.cap then alReserve s (s.size + 1) else s
    let cni := alWalk s0.nodes index s0.head
    let nd := anGet s0.nodes cni
    if s0.freeSize ≠ 0 then
      let ni := s0.free.getD (s0.freeSize - 1) 0
      let ns1 := anSet s0.nodes ni (fun _ => { nd with prev := cni, hasPrev := true, taken := true })
      let s1 := { s0 with nodes := ns1 }
      let s2 := if index = s0.size - 1 then { s1 with tail := ni } else s1
      let ns2 := anSet s2.nodes cni (fun n => { n with value := v, next := ni, hasNext := true })
      { s2 with nodes := ns2, size := s0.size + 1, freeSize := s0.freeSize - 1 }
    else
      match alFindUntaken s0.nodes with
      | some i =>
        let s1 :=
          if nd.hasNext then
            { s0 with nodes := anSet s0.nodes nd.next (fun nx => { nx with prev := i }) }
          else s0
        let nd1 := anGet s1.nodes cni
        let ns1 := anSet s1.nodes i (fun _ => { nd1 with prev := cni, hasPrev := true, taken := true })
        let s2 := { s1 with nodes := ns1 }
        let s3 := if index = s0.size - 1 then { s2 with tail := i } else s2
        let ns2 := anSet s3.nodes cni (fun n => { n with value := v, next := i, hasNext := true })
        { s3 with nodes := ns2, size := s0.size + 1 }
      | none => s0

/-- One arena-list operation of a test sequence. -/
inductive AlOp where
  | pb (v : Nat)
  | pf (v : Nat)
  | popb
  | popf
  | eri (i : Nat)
  | ini (i v : Nat)
  | rsv (n : Nat)
deriving Repr, DecidableEq

/-- Applies one operation to the arena list. -/
def alStep (s : AList) : AlOp → AList
  | .pb v => alPushBack s v
  | .pf v => alPushFront s v
  | .popb => alPopBack s
  | .popf => alPopFront s
  | .eri i => alEraseIdx s i
  | .ini i v => alInsertIdx s i v
  | .rsv n => alReserve s n

/-- Runs a sequence of operations from the default-constructed list. -/
def alRun (ops : List AlOp) : AList := ops.foldl alStep alEmpty

/-- Slots visited by `size` steps of the head-to-tail `next` walk. -/
def alWalkSlots (ns : List ANode) (fwd : Bool) : Nat → Nat → List Nat
  | 0, _ => []
  | c + 1, ni =>
    let e := anGet ns ni
    ni :: alWalkSlots ns fwd c
      (if fwd then (if e.hasNext then e.next else ni) else (if e.hasPrev then e.prev else ni))

/-- Values seen on the head-to-tail walk. -/
def alForwardVals (s : AList) : List Nat :=
  (alWalkSlots s.nodes true s.size s.head).map (fun i => (anGet s.nodes i).value)

/-- Values seen on the tail-to-head walk. -/
def alBackwardVals (s : AList) : List Nat :=
  (alWalkSlots s.nodes false s.size s.tail).map (fun i => (anGet s.nodes i).value)

/-- Number of nodes with the `taken` flag set. -/
def alTakenCount (s : AList) : Nat := s.nodes.countP (·.taken)

/-- C6: evaluation of the arena list at the failing inputs.
After `[push_back 10, pop_back]` the free-index count is 0 although
`capacity - size = 1` (the single-element pop never returns the head slot to
the free-index array).  After `[push_back 10, push_back 20, pop_front,
pop_back, push_back 30, push_back 40]` that leak lets slot 0 be handed out
from the free-index array while already occupied: the value 30 is
overwritten, the walk from head visits the same node twice, and only one
node is taken although `size() = 2`.  After `[push_back 1, push_back 2,
push_back 3, push_back 4, erase_index 1, insert_index 1 99]` the forward
order is correct but the free-path insert left the successor's `prev` link
stale, so the tail-to-head walk does not reproduce the reverse order. -/
theorem c6_arena_divergence :
    ((alRun [.pb 10, .popb]).freeSize = 0 ∧
      (alRun [.pb 10, .popb]).cap - (alRun [.pb 10, .popb]).size = 1) ∧
    (alTakenCount (alRun [.pb 10, .pb 20, .popf, .popb, .pb 30, .pb 40]) = 1 ∧
      (alRun [.pb 10, .pb 20, .popf, .popb, .pb 30, .pb 40]).size = 2 ∧
      alForwardVals (alRun [.pb 10, .pb 20, .popf, .popb, .pb 30, .pb 40]) = [40, 40] ∧
      ¬ (alWalkSlots (alRun [.pb 10, .pb 20, .popf, .popb, .pb 30, .pb 40]).nodes true 2
          (alRun [.pb 10, .pb 20, .popf, .popb, .pb 30, .pb 40]).head).Nodup) ∧
    (alForwardVals (alRun [.pb 1, .pb 2, .pb 3, .pb 4, .eri 1, .ini 1 99]) = [1, 99, 3, 4] ∧
      alBackwardVals (alRun [.pb 1, .pb 2, .pb 3, .pb 4, .eri 1, .ini 1 99]) = [4, 99, 1, 1] ∧
      alBackwardVals (alRun [.pb 1, .pb 2, .pb 3, .pb 4, .eri 1, .ini 1 99]) ≠
        (alForwardVals (alRun [.pb 1, .pb 2, .pb 3, .pb 4, .eri 1, .ini 1 99])).reverse) := by
  decide

/-! ## Raw allocation primitives

Translation of `lvn::memAlloc` / `lvn::memFree` (levikno.cpp).  The
installed allocator (`s_MemAllocFunc`, default `malloc`) is modelled as a
success predicate on the requested size; the process-wide context pointer
`s_LvnContext` is an optional allocation counter; a ghost field counts the
raw allocator invocations. -/

/-- Global state around the allocation primitives: the optional context
(carrying `numMemoryAllocations`) and the ghost count of raw allocator
invocations. -/
structure MemState where
  ctx : Option Nat
  allocCalls : Nat
deriving Repr, DecidableEq

/-- Result of `memAlloc`: the returned block (`none` is a null pointer), the
new global state, and whether the call hit `LVN_ABORT` (allocator failure). -/
structure AllocResult where
  block : Option (List Nat)
  st : MemState
  aborted : Bool
deriving Repr, DecidableEq

/-- `lvn::memAlloc(size)`: size 0 returns null without calling the
allocator; otherwise the installed allocator is invoked (failure logs and
aborts), the block is `memset` to zero, and the context's allocation counter
is incremented when a context exists. -/
def memAlloc (alloc : Nat → Bool) (st : MemState) (size : Nat) : AllocResult :=
  if size = 0 then ⟨none, st, false⟩
  else
    let st1 : MemState := { st with allocCalls := st.allocCalls + 1 }
    if alloc size then
      ⟨some (List.replicate size 0), { st1 with ctx := st1.ctx.map (fun c => (c + 1) % U64) }, false⟩
    else ⟨none, st1, true⟩

/-- `lvn::memFree(ptr)`: null pointers return immediately; otherwise the
installed free function is invoked and the context's allocation counter is
decremented when a context exists. -/
def memFree (st : MemState) (ptr : Option Unit) : MemState :=
  match ptr with
  | none => st
  | some _ => { st with ctx := st.ctx.map (fun c => (c + U64 - 1) % U64) }

/-- C10: `memAlloc(0)` returns a null pointer without invoking the installed
allocator or touching the allocation counter; for `size > 0` with a context
installed and a succeeding allocator, `memAlloc` returns a block of `size`
zero bytes, increments the context counter by one and invokes the allocator
exactly once; `memFree(nullptr)` is a no-op. -/
theorem c10_memAlloc_memFree (alloc : Nat → Bool) (st : MemState) (size c : Nat)
    (hs : 0 < size) (hc : st.ctx = some c) (hok : alloc size = true) (hlt : c + 1 < U64) :
    memAlloc alloc st 0 = ⟨none, st, false⟩ ∧
    (memAlloc alloc st size).block = some (List.replicate size 0) ∧
    (∀ b, b ∈ ((memAlloc alloc st size).block.getD []) → b = 0) ∧
    (memAlloc alloc st size).st.ctx = some (c + 1) ∧
    (memAlloc alloc st size).st.allocCalls = st.allocCalls + 1 ∧
    (memAlloc alloc st size).aborted = false ∧
    (∀ st2 : MemState, memFree st2 none = st2) := by
  have hne : ¬ size = 0 := by omega
  have hres : memAlloc alloc st size =
      ⟨some (List.replicate size 0),
       { st with allocCalls := st.allocCalls + 1, ctx := st.ctx.map (fun d => (d + 1) % U64) },
       false⟩ := by
    rw [memAlloc, if_neg hne, if_pos hok]
  refine ⟨by rw [memAlloc, if_pos rfl], ?_, ?_, ?_, ?_, ?_, fun st2 => rfl⟩
  · rw [hres]
  · intro b hb
    rw [hres] at hb
    exact List.eq_of_mem_replicate hb
  · rw [hres]
    simp only [hc]
    show some ((c + 1) % U64) = some (c + 1)
    rw [Nat.mod_eq_of_lt hlt]
  · rw [hres]
  · rw [hres]

/-- C10 witness: a concrete allocator, state and size. -/
theorem c10_memAlloc_memFree_witness :
    memAlloc (fun _ => true) ⟨some 0, 0⟩ 0 = ⟨none, ⟨some 0, 0⟩, false⟩ ∧
    (memAlloc (fun _ => true) ⟨some 0, 0⟩ 4).block = some (List.replicate 4 0) ∧
    (∀ b, b ∈ ((memAlloc (fun _ => true) ⟨some 0, 0⟩ 4).block.getD []) → b = 0) ∧
    (memAlloc (fun _ => true) ⟨some 0, 0⟩ 4).st.ctx = some 1 ∧
    (memAlloc (fun _ => true) ⟨some 0, 0⟩ 4).st.allocCalls = 1 ∧
    (memAlloc (fun _ => true) ⟨some 0, 0⟩ 4).aborted = false ∧
    (∀ st2 : MemState, memFree st2 none = st2) :=
  c10_memAlloc_memFree (fun _ => true) ⟨some 0, 0⟩ 4 0 (by decide) rfl rfl (by decide)

/-! ## Memory pool and object lifecycle

The classes `LvnMemoryBlock` / `LvnMemoryBinding` / `LvnMemoryPool` are
declared in `levikno_internal.h`, which is not among the sources at hand
(only their callers in levikno.cpp are); the binding operations are
therefore modelled from the spec (sections 4.1-4.3).  The functions
`createMemoryBlock`, `createObject` and `destroyObject` are translated from
levikno.cpp.  The state is the pool of one fixed structure type; object
addresses are modelled as (binding index, slot index) pairs, and ghost
fields record destructor invocations and live individual-mode heap blocks. -/

/-- Modelled from the spec: an `LvnMemoryBinding` (declared in the missing
`levikno_internal.h`) — a typed view over a memory-block segment with a
per-slot `elementSize`, a slot capacity `count`, the linear never-used
cursor, a LIFO free-list of reclaimed slot indices (head = most recently
freed), and the optional link to the `next` binding in the chain installed
once by `set_next_memory_binding`. -/
structure MemBinding where
  elementSize : Nat
  count : Nat
  cursor : Nat
  freeList : List Nat
  next : Option Nat
deriving Repr, DecidableEq

/-- The `{ size, count }` part of a per-type `TypeAllocInfo` record. -/
structure AllocInfo where
  size : Nat
  count : Nat
deriving Repr, DecidableEq

/-- `LvnMemAllocMode`. -/
inductive MemMode where
  | individual
  | memPool
deriving Repr, DecidableEq

/-- A reference returned by `createObject`: a plain heap pointer
(individual mode), a pool slot, or null. -/
inductive ObjRef where
  | heap
  | slot (binding slotIdx : Nat)
  | null
deriving Repr, DecidableEq

/-- Pool state for one structure type: the `memBindings[type]` vector (index
0 is the base binding), the number of chained blocks in `memBlocks[type]`,
the type's live-object counter (`uint64`), and the ghost observables. -/
structure PoolState where
  bindings : List MemBinding
  blocks : Nat
  counter : Nat
  dtorCalls : Nat
  heapLive : Nat
deriving Repr, DecidableEq

/-- Modelled from the spec: `find_empty_memory_binding` (declared in the
missing `levikno_internal.h`) — returns this binding when its free-list is
non-empty or its cursor has not reached `count`, else recurses into `next`,
else null.  The walk is fuelled; callers pass the binding count. -/
def findEmpty (bindings : List MemBinding) : Nat → Nat → Option Nat
  | 0, _ => none
  | fuel + 1, i =>
    match bindings[i]? with
    | none => none
    | some b =>
      if b.freeList ≠ [] ∨ b.cursor < b.count then some i
      else
        match b.next with
        | some j => findEmpty bindings fuel j
        | none => none

/-- Modelled from the spec: `take_next` (declared in the missing
`levikno_internal.h`) — pops the most recently freed slot from the
free-list, else hands out the slot at the linear cursor and advances it.
The spec gives `take_next` the precondition that availability was verified
via `find_empty_memory_binding`, while its caller `createObject` always
invokes it on the base binding; the chain-growth and slot-reuse scenarios of
the spec (sections 8.1, 8.2 and 8.7) require the call to be served by the
first binding in the chain with room, so an exhausted binding delegates to
its `next` binding. -/
def takeNext (bindings : List MemBinding) : Nat → Nat → Option ((Nat × Nat) × List MemBinding)
  | 0, _ => none
  | fuel + 1, i =>
    match bindings[i]? with
    | none => none
    | some b =>
      match b.freeList with
      | s :: rest => some ((i, s), bindings.set i { b with freeList := rest })
      | [] =>
        if b.cursor < b.count then
          some ((i, b.cursor), bindings.set i { b with cursor := b.cursor + 1 })
        else
          match b.next with
          | some j => takeNext bindings fuel j
          | none => none

/-- Modelled from the spec: `push_back(obj)` (declared in the missing
`levikno_internal.h`) — computes obj's slot index from its address offset
and appends it to the free-list, under the precondition that obj was
allocated from this exact binding; with addresses modelled as
(binding, slot) pairs, the slot is recorded in the free-list of the binding
owning the address. -/
def bindingPushBack (bindings : List MemBinding) (addr : Nat × Nat) : List MemBinding :=
  match bindings[addr.1]? with
  | none => bindings
  | some b => bindings.set addr.1 { b with freeList := addr.2 :: b.freeList }

/-- `lvn::createMemoryBlock` (levikno.cpp): allocates a new memory block of
`blockAllocInfos[type].size * count` bytes, appends it to `memBlocks[type]`,
wraps it in a fresh binding appended to `memBindings[type]`, and links the
previous tail of the chain to it via `set_next_memory_binding`. -/
def createMemoryBlock (blockInfo : AllocInfo) (st : PoolState) : PoolState :=
  let newIdx := st.bindings.length
  let bindings1 := st.bindings ++ [⟨blockInfo.size, blockInfo.count, 0, [], none⟩]
  let bindings2 :=
    if st.bindings.isEmpty then bindings1
    else
      match bindings1[newIdx - 1]? with
      | some prev => bindings1.set (newIdx - 1) { prev with next := some newIdx }
      | none => bindings1
  { st with blocks := st.blocks + 1, bindings := bindings2 }

/-- The `take_next` stage of `lvn::createObject<T>`: hands out the next slot
of the chain (the placement-construction of `T` happens into the returned
slot) and increments the type's live-object counter. -/
def createObjectTake (st1 : PoolState) : ObjRef × PoolState :=
  match takeNext st1.bindings st1.bindings.length 0 with
  | some as2 =>
    (.slot as2.1.1 as2.1.2,
     { st1 with bindings := as2.2, counter := (st1.counter + 1) % U64 })
  | none => (.null, { st1 with counter := (st1.counter + 1) % U64 })

/-- `lvn::createObject<T>` (levikno.cpp): in individual mode a plain
`new T()`; in pool mode, when `find_empty_memory_binding` on the chain of
`memBindings[type][0]` reports no room, `createMemoryBlock` grows the chain,
and `take_next` hands out the slot into which `T` is placement-constructed.
The type's live-object counter is incremented in both modes. -/
def createObject (mode : MemMode) (blockInfo : AllocInfo) (st : PoolState) :
    ObjRef × PoolState :=
  match mode with
  | .individual =>
    (.heap, { st with heapLive := st.heapLive + 1, counter := (st.counter + 1) % U64 })
  | .memPool =>
    createObjectTake
      (if findEmpty st.bindings st.bindings.length 0 = none then
        createMemoryBlock blockInfo st
      else st)

/-- `lvn::destroyObject<T>` (levikno.cpp): individual mode runs `delete obj`
(which invokes the destructor — a no-op for trivially destructible `T` —
and frees the heap block; `delete` on null does nothing); pool mode calls
`push_back(obj)` on `memBindings[type][0]` and runs no destructor; the
live-object counter is decremented in both modes. -/
def destroyObject (mode : MemMode) (trivialDtor : Bool) (st : PoolState) (obj : ObjRef) :
    PoolState :=
  let cDec := (st.counter + U64 - 1) % U64
  match mode with
  | .individual =>
    match obj with
    | .heap =>
      let dCalls := st.dtorCalls + (if trivialDtor then 0 else 1)
      { st with heapLive := st.heapLive - 1, dtorCalls := dCalls, counter := cDec }
    | _ => { st with counter := cDec }
  | .memPool =>
    match obj with
    | .slot b s =>
      { st with bindings := bindingPushBack st.bindings (b, s), counter := cDec }
    | _ => { st with counter := cDec }

/-- The pool of one structure type right after context creation: one base
binding with the configured element size and count. -/
def freshPool (esz cnt : Nat) : PoolState :=
  ⟨[⟨esz, cnt, 0, [], none⟩], 0, 0, 0, 0⟩

/-- `n` consecutive pool-mode creates. -/
def iterCreate (blockInfo : AllocInfo) : Nat → PoolState → PoolState
  | 0, st => st
  | n + 1, st => (createObject .memPool blockInfo (iterCreate blockInfo n st)).2

/-- The chain of binding indices reached by walking the `next` links. -/
def walkNext (bindings : List MemBinding) : Nat → Nat → List Nat
  | 0, i => [i]
  | fuel + 1, i =>
    match bindings[i]? with
    | none => [i]
    | some b =>
      match b.next with
      | some j => i :: walkNext bindings fuel j
      | none => [i]

/-- C1 counterexample: a pool-mode state with one live object of a
non-trivially-destructible type.  The claim requires `destroyObject` to run
the object's destructor, i.e. the destructor-invocation count would grow by
one; the translated source leaves it unchanged (the pool branch only calls
`push_back` and decrements the live-object counter). -/
theorem c1_counterexample :
    (destroyObject .memPool false ⟨[⟨1, 1, 1, [], none⟩], 0, 1, 0, 0⟩ (.slot 0 0)).dtorCalls =
      (⟨[⟨1, 1, 1, [], none⟩], 0, 1, 0, 0⟩ : PoolState).dtorCalls ∧
    ¬ ((destroyObject .memPool false ⟨[⟨1, 1, 1, [], none⟩], 0, 1, 0, 0⟩ (.slot 0 0)).dtorCalls =
        (⟨[⟨1, 1, 1, [], none⟩], 0, 1, 0, 0⟩ : PoolState).dtorCalls + 1) := by
  decide

/-- C1 (amended): in pool mode `destroyObject` returns the object's slot to
its binding's free-list via `push_back` on `memBindings[type][0]` and
decrements the type's live-object counter by exactly one, but runs no
destructor; in individual mode it frees the heap block via `delete` (which
does run the destructor, a no-op for trivially destructible types) with
identical counter bookkeeping. -/
theorem c1_destroy_semantics (st : PoolState) (b : MemBinding) (i s : Nat) (td : Bool)
    (hb : st.bindings[i]? = some b) (hc0 : 0 < st.counter) (hcU : st.counter < U64) :
    (destroyObject .memPool td st (.slot i s)).bindings =
      st.bindings.set i { b with freeList := s :: b.freeList } ∧
    (destroyObject .memPool td st (.slot i s)).counter = st.counter - 1 ∧
    (destroyObject .memPool td st (.slot i s)).dtorCalls = st.dtorCalls ∧
    (destroyObject .memPool td st (.slot i s)).blocks = st.blocks ∧
    (destroyObject .individual td st .heap).counter = st.counter - 1 ∧
    (destroyObject .individual td st .heap).heapLive = st.heapLive - 1 ∧
    (destroyObject .individual td st .heap).dtorCalls =
      st.dtorCalls + (if td then 0 else 1) := by
  have hU : 0 < U64 := Nat.two_pow_pos 64
  have hdec : (st.counter + U64 - 1) % U64 = st.counter - 1 := by
    have h1 : st.counter + U64 - 1 = (st.counter - 1) + 1 * U64 := by omega
    rw [h1, Nat.add_mul_mod_self_right]
    exact Nat.mod_eq_of_lt (by omega)
  refine ⟨?_, hdec, rfl, rfl, hdec, rfl, rfl⟩
  show bindingPushBack st.bindings (i, s) = _
  simp only [bindingPushBack, hb]

/-- C1 witness: concrete pool and individual states run through the
theorem. -/
theorem c1_destroy_semantics_witness :
    (⟨[⟨1, 1, 1, [], none⟩], 0, 1, 0, 5⟩ : PoolState).bindings[0]? =
        some ⟨1, 1, 1, [], none⟩ ∧
    ((destroyObject .memPool false ⟨[⟨1, 1, 1, [], none⟩], 0, 1, 0, 5⟩ (.slot 0 0)).bindings =
        [⟨1, 1, 1, [], none⟩].set 0 ⟨1, 1, 1, [0], none⟩ ∧
      (destroyObject .memPool false ⟨[⟨1, 1, 1, [], none⟩], 0, 1, 0, 5⟩ (.slot 0 0)).counter = 0 ∧
      (destroyObject .memPool false ⟨[⟨1, 1, 1, [], none⟩], 0, 1, 0, 5⟩ (.slot 0 0)).dtorCalls = 0 ∧
      (destroyObject .memPool false ⟨[⟨1, 1, 1, [], none⟩], 0, 1, 0, 5⟩ (.slot 0 0)).blocks = 0 ∧
      (destroyObject .individual false ⟨[⟨1, 1, 1, [], none⟩], 0, 1, 0, 5⟩ .heap).counter = 0 ∧
      (destroyObject .individual false ⟨[⟨1, 1, 1, [], none⟩], 0, 1, 0, 5⟩ .heap).heapLive = 4 ∧
      (destroyObject .individual false ⟨[⟨1, 1, 1, [], none⟩], 0, 1, 0, 5⟩ .heap).dtorCalls =
        0 + (if false then 0 else 1)) :=
  ⟨rfl, c1_destroy_semantics ⟨[⟨1, 1, 1, [], none⟩], 0, 1, 0, 5⟩ ⟨1, 1, 1, [], none⟩ 0 0 false
    rfl (by decide) (by decide)⟩

/-- A pool-mode create on a base binding with room (empty free-list, cursor
below count) hands out the cursor slot and advances only the cursor. -/
theorem createObject_cursor_step (esz N k c bsz bcnt : Nat) (hk : k < N) :
    createObject .memPool ⟨bsz, bcnt⟩ ⟨[⟨esz, N, k, [], none⟩], 0, c, 0, 0⟩ =
      (.slot 0 k, ⟨[⟨esz, N, k + 1, [], none⟩], 0, (c + 1) % U64, 0, 0⟩) := by
  have hfe : findEmpty [⟨esz, N, k, [], none⟩] 1 0 = some 0 := by
    simp [findEmpty, hk]
  have htn : takeNext [⟨esz, N, k, [], none⟩] 1 0 =
      some ((0, k), [⟨esz, N, k + 1, [], none⟩]) := by
    simp [takeNext, hk]
  simp [createObject, createObjectTake, hfe, htn]

/-- After `k <= N` creates from a fresh pool, the base binding's cursor is
`k`, its free-list is empty, and no chained block exists. -/
theorem iterCreate_fresh (esz N bsz bcnt : Nat) :
    ∀ k, k ≤ N → iterCreate ⟨bsz, bcnt⟩ k (freshPool esz N) =
      ⟨[⟨esz, N, k, [], none⟩], 0, k % U64, 0, 0⟩ := by
  intro k
  induction k with
  | zero => intro _; simp [iterCreate, freshPool]
  | succ k ih =>
    intro hk
    rw [iterCreate, ih (by omega),
      createObject_cursor_step esz N k (k % U64) bsz bcnt (by omega)]
    simp [Nat.mod_add_mod]

/-- A pool-mode create on a full base binding grows the chain by exactly one
block whose binding is linked behind the base binding. -/
theorem createObject_grow (esz N c bsz bcnt : Nat) :
    ((createObject .memPool ⟨bsz, bcnt⟩ ⟨[⟨esz, N, N, [], none⟩], 0, c, 0, 0⟩).2.blocks = 1 ∧
      (createObject .memPool ⟨bsz, bcnt⟩
        ⟨[⟨esz, N, N, [], none⟩], 0, c, 0, 0⟩).2.bindings.length = 2 ∧
      walkNext (createObject .memPool ⟨bsz, bcnt⟩
          ⟨[⟨esz, N, N, [], none⟩], 0, c, 0, 0⟩).2.bindings 2 0 = [0, 1]) := by
  have hfe : findEmpty [⟨esz, N, N, [], none⟩] 1 0 = none := by
    simp [findEmpty]
  have hblk : createMemoryBlock ⟨bsz, bcnt⟩ ⟨[⟨esz, N, N, [], none⟩], 0, c, 0, 0⟩ =
      ⟨[⟨esz, N, N, [], some 1⟩, ⟨bsz, bcnt, 0, [], none⟩], 1, c, 0, 0⟩ := by
    simp [createMemoryBlock]
  cases bcnt with
  | zero =>
    have htn : takeNext [⟨esz, N, N, [], some 1⟩, ⟨bsz, 0, 0, [], none⟩] 2 0 = none := by
      simp [takeNext]
    simp [createObject, createObjectTake, hfe, hblk, htn, walkNext]
  | succ b2 =>
    have htn : takeNext [⟨esz, N, N, [], some 1⟩, ⟨bsz, b2 + 1, 0, [], none⟩] 2 0 =
        some ((1, 0), [⟨esz, N, N, [], some 1⟩, ⟨bsz, b2 + 1, 1, [], none⟩]) := by
      simp [takeNext]
    simp [createObject, createObjectTake, hfe, hblk, htn, walkNext]

/-- C2: for every element size, base count `N` and block sizing, the first
`N` creates from a fresh pool build no chained block, the `N + 1`-st create
builds exactly one, and the new block's binding is reachable by walking the
`next` links from the base binding `memBindings[type][0]` (the walk visits
binding 0 and then the freshly created binding 1). -/
theorem c2_chain_growth (esz N bsz bcnt : Nat) :
    (iterCreate ⟨bsz, bcnt⟩ N (freshPool esz N)).blocks = 0 ∧
    (iterCreate ⟨bsz, bcnt⟩ (N + 1) (freshPool esz N)).blocks = 1 ∧
    (iterCreate ⟨bsz, bcnt⟩ (N + 1) (freshPool esz N)).bindings.length = 2 ∧
    walkNext (iterCreate ⟨bsz, bcnt⟩ (N + 1) (freshPool esz N)).bindings
      (iterCreate ⟨bsz, bcnt⟩ (N + 1) (freshPool esz N)).bindings.length 0 = [0, 1] := by
  have hN := iterCreate_fresh esz N bsz bcnt N le_rfl
  have hsucc : iterCreate ⟨bsz, bcnt⟩ (N + 1) (freshPool esz N) =
      (createObject .memPool ⟨bsz, bcnt⟩ ⟨[⟨esz, N, N, [], none⟩], 0, N % U64, 0, 0⟩).2 := by
    rw [iterCreate, hN]
  obtain ⟨h1, h2, h3⟩ := createObject_grow esz N (N % U64) bsz bcnt
  refine ⟨by rw [hN], by rw [hsucc]; exact h1, by rw [hsucc]; exact h2, ?_⟩
  rw [hsucc, h2]
  exact h3

/-- C3 counterexample: base count 1; create `a1` (base slot `(0,0)`), create
`c1` (chain growth, slot `(1,0)`), destroy `a1`, destroy `c1` — the most
recently freed slot is `(1,0)` — then create: the pool serves the base
binding's free-list first and returns `(0,0)`, not the most recently freed
slot. -/
theorem c3_counterexample :
    (createObject .memPool ⟨1, 4⟩
      (destroyObject .memPool false
        (destroyObject .memPool false
          (createObject .memPool ⟨1, 4⟩
            (createObject .memPool ⟨1, 4⟩ (freshPool 1 1)).2).2
          (.slot 0 0))
        (.slot 1 0))).1 = ObjRef.slot 0 0 ∧
    ObjRef.slot 0 0 ≠ ObjRef.slot 1 0 := by
  decide

/-- A create served while the base binding has freed slots pops the base
binding's free-list (LIFO) and creates no block. -/
theorem createObject_pops_base (binfo : AllocInfo) (st : PoolState) (b0 : MemBinding)
    (s : Nat) (rest : List Nat) (hb : st.bindings[0]? = some b0)
    (hf : b0.freeList = s :: rest) :
    (createObject .memPool binfo st).1 = .slot 0 s ∧
    (createObject .memPool binfo st).2.blocks = st.blocks ∧
    (createObject .memPool binfo st).2.bindings =
      st.bindings.set 0 { b0 with freeList := rest } := by
  obtain ⟨L, hL⟩ : ∃ L, st.bindings.length = L + 1 := by
    cases hxs : st.bindings with
    | nil => rw [hxs] at hb; simp at hb
    | cons x xs => exact ⟨xs.length, by simp [hxs]⟩
  have hfe : findEmpty st.bindings (L + 1) 0 = some 0 := by
    simp [findEmpty, hb, hf]
  have htn : takeNext st.bindings (L + 1) 0 =
      some ((0, s), st.bindings.set 0 { b0 with freeList := rest }) := by
    simp [takeNext, hb, hf]
  simp [createObject, createObjectTake, hL, hfe, htn]

/-- A create on a single-binding pool whose base has an empty free-list and
cursor room hands out the cursor slot. -/
theorem createObject_single_cursor (binfo : AllocInfo) (st : PoolState) (b : MemBinding)
    (hbind : st.bindings = [b]) (hf : b.freeList = []) (hc : b.cursor < b.count) :
    createObject .memPool binfo st =
      (.slot 0 b.cursor,
       { st with bindings := [{ b with cursor := b.cursor + 1 }],
                 counter := (st.counter + 1) % U64 }) := by
  have hfe : findEmpty [b] 1 0 = some 0 := by
    simp [findEmpty, hc]
  have htn : takeNext [b] 1 0 = some ((0, b.cursor), [{ b with cursor := b.cursor + 1 }]) := by
    simp [takeNext, hf, hc]
  simp [createObject, createObjectTake, hbind, hfe, htn]

/-- A create on a single-binding pool whose base is exhausted grows the
chain: the block count increases by one. -/
theorem createObject_single_full (binfo : AllocInfo) (st : PoolState) (b : MemBinding)
    (hbind : st.bindings = [b]) (hf : b.freeList = []) (hc : ¬ b.cursor < b.count)
    (hnx : b.next = none) :
    (createObject .memPool binfo st).2.blocks = st.blocks + 1 := by
  have hfe : findEmpty [b] 1 0 = none := by
    simp [findEmpty, hf, hc, hnx]
  have hblk : createMemoryBlock binfo st =
      ⟨[{ b with next := some 1 }, ⟨binfo.size, binfo.count, 0, [], none⟩],
       st.blocks + 1, st.counter, st.dtorCalls, st.heapLive⟩ := by
    simp [createMemoryBlock, hbind]
  rcases htn : takeNext [{ b with next := some 1 }, ⟨binfo.size, binfo.count, 0, [], none⟩] 2 0
      with _ | as2 <;>
    simp [createObject, createObjectTake, hbind, hfe, hblk, htn]

/-- Pool-mode destroys change neither the block count nor anything but the
addressed binding's free-list and the counter. -/
theorem destroyObject_pool_state (td : Bool) (st : PoolState) (x y : Nat) :
    destroyObject .memPool td st (.slot x y) =
      ⟨bindingPushBack st.bindings (x, y), st.blocks, (st.counter + U64 - 1) % U64,
       st.dtorCalls, st.heapLive⟩ := rfl

/-- Updates the ghost list of live pool objects with a create result. -/
def pushLive (r : ObjRef) (live : List (Nat × Nat)) : List (Nat × Nat) :=
  match r with
  | .slot b s => (b, s) :: live
  | _ => live

/-- Pool states reachable from a fresh pool of base count `N` by pool-mode
`createObject` calls and `destroyObject` calls on live objects, with the
ghost list of live objects. -/
inductive Reach (binfo : AllocInfo) (esz N : Nat) : PoolState → List (Nat × Nat) → Prop where
  | init : Reach binfo esz N (freshPool esz N) []
  | create {st live} (h : Reach binfo esz N st live) :
      Reach binfo esz N (createObject .memPool binfo st).2
        (pushLive (createObject .memPool binfo st).1 live)
  | destroy {st live} (a : Nat × Nat) (td : Bool) (h : Reach binfo esz N st live)
      (ha : a ∈ live) :
      Reach binfo esz N (destroyObject .memPool td st (.slot a.1 a.2)) (live.erase a)

/-- While no chained block exists, the pool still consists of the single
base binding, its cursor never exceeds `N`, every live object occupies a
base slot, and the live slots together with the free-list are exactly the
slots below the cursor. -/
def baseInv (esz N : Nat) (st : PoolState) (live : List (Nat × Nat)) : Prop :=
  st.blocks = 0 →
    ∃ b : MemBinding, st.bindings = [b] ∧ b.elementSize = esz ∧ b.count = N ∧
      b.cursor ≤ N ∧ b.next = none ∧ (∀ a ∈ live, a.1 = 0) ∧
      List.Perm (live.map Prod.snd ++ b.freeList) (List.range b.cursor)

/-- Erasing a live object removes exactly its slot from the slot list, given
that the slots are distinct. -/
theorem map_snd_erase (l : List (Nat × Nat)) (a : Nat × Nat)
    (hnd : (l.map Prod.snd).Nodup) (ha : a ∈ l) :
    (l.erase a).map Prod.snd = (l.map Prod.snd).erase a.2 := by
  induction l with
  | nil => simp at ha
  | cons x xs ih =>
    rcases eq_or_ne x a with rfl | hxa
    · simp
    · have hmem : a ∈ xs := by
        rcases List.mem_cons.mp ha with h | h
        · exact absurd h.symm hxa
        · exact h
      have hsnd : x.2 ≠ a.2 := by
        intro he
        rw [List.map_cons, List.nodup_cons] at hnd
        exact hnd.1 (he ▸ List.mem_map_of_mem Prod.snd hmem)
      rw [List.erase_cons_tail (by simp [hxa]), List.map_cons,
        List.map_cons, List.erase_cons_tail (by simp [hsnd])]
      rw [ih (by rw [List.map_cons, List.nodup_cons] at hnd; exact hnd.2) hmem]

/-- The `take_next` stage never changes the block count. -/
theorem createObjectTake_blocks (st1 : PoolState) :
    (createObjectTake st1).2.blocks = st1.blocks := by
  rcases htn : takeNext st1.bindings st1.bindings.length 0 with _ | as2 <;>
    simp [createObjectTake, htn]

/-- A pool-mode create grows the block count by zero or one. -/
theorem createObject_blocks (binfo : AllocInfo) (st : PoolState) :
    (createObject .memPool binfo st).2.blocks = st.blocks ∨
    (createObject .memPool binfo st).2.blocks = st.blocks + 1 := by
  by_cases hc : findEmpty st.bindings st.bindings.length 0 = none
  · right
    simp [createObject, hc, createObjectTake_blocks, createMemoryBlock]
  · left
    simp [createObject, hc, createObjectTake_blocks]

/-- The base-binding invariant holds in every reachable state. -/
theorem reach_baseInv {binfo : AllocInfo} {esz N : Nat} {st : PoolState}
    {live : List (Nat × Nat)} (h : Reach binfo esz N st live) :
    baseInv esz N st live := by
  induction h with
  | init =>
    intro _
    exact ⟨⟨esz, N, 0, [], none⟩, rfl, rfl, rfl, Nat.zero_le N, rfl, by simp, by simp⟩
  | @create st live h ih =>
    intro hb0
    have hst0 : st.blocks = 0 := by
      rcases createObject_blocks binfo st with hq | hq <;> omega
    obtain ⟨b, hbind, hesz, hcnt, hcur, hnx, hlv, hperm⟩ := ih hst0
    rcases hfl : b.freeList with _ | ⟨s, rest⟩
    · by_cases hcc : b.cursor < b.count
      · have hco := createObject_single_cursor binfo st b hbind hfl hcc
        rw [hco]
        refine ⟨{ b with cursor := b.cursor + 1 }, rfl, hesz, hcnt, by simp; omega, hnx, ?_, ?_⟩
        · intro a haa
          simp only [pushLive] at haa
          rcases List.mem_cons.mp haa with h1 | h1
          · rw [h1]
          · exact hlv a h1
        · simp only [pushLive, List.map_cons, List.range_succ]
          rw [hfl, List.append_nil] at hperm ⊢
          exact (hperm.cons b.cursor).trans (List.perm_append_singleton _ _).symm
      · exfalso
        have := createObject_single_full binfo st b hbind hfl hcc hnx
        omega
    · have hb00 : st.bindings[0]? = some b := by rw [hbind]; rfl
      obtain ⟨hr1, hr2, hr3⟩ := createObject_pops_base binfo st b s rest hb00 hfl
      have hbset : (createObject .memPool binfo st).2.bindings =
          [{ b with freeList := rest }] := by
        rw [hr3, hbind]
        rfl
      refine ⟨{ b with freeList := rest }, hbset, hesz, hcnt, hcur, hnx, ?_, ?_⟩
      · intro x hx
        rw [hr1] at hx
        simp only [pushLive] at hx
        rcases List.mem_cons.mp hx with h1 | h1
        · rw [h1]
        · exact hlv x h1
      · rw [hr1]
        simp only [pushLive, List.map_cons]
        rw [hfl] at hperm
        exact List.perm_middle.symm.trans hperm
  | @destroy st live a td h ha ih =>
    intro hb0
    have hst0 : st.blocks = 0 := by
      have hq : (destroyObject .memPool td st (.slot a.1 a.2)).blocks = st.blocks := by
        rw [destroyObject_pool_state]
      omega
    obtain ⟨b, hbind, hesz, hcnt, hcur, hnx, hlv, hperm⟩ := ih hst0
    have ha0 : a.1 = 0 := hlv a ha
    have hbset : (destroyObject .memPool td st (.slot a.1 a.2)).bindings =
        [{ b with freeList := a.2 :: b.freeList }] := by
      rw [destroyObject_pool_state]
      show bindingPushBack st.bindings (a.1, a.2) = _
      rw [hbind, ha0]
      rfl
    refine ⟨{ b with freeList := a.2 :: b.freeList }, hbset, hesz, hcnt, hcur, hnx, ?_, ?_⟩
    · intro x hx
      exact hlv x (List.mem_of_mem_erase hx)
    · have hnd : (live.map Prod.snd ++ b.freeList).Nodup :=
        hperm.symm.nodup (List.nodup_range _)
      have hndm : (live.map Prod.snd).Nodup := hnd.of_append_left
      have hsm : a.2 ∈ live.map Prod.snd := List.mem_map_of_mem Prod.snd ha
      rw [map_snd_erase live a hndm ha]
      have h1 : List.Perm ((live.map Prod.snd).erase a.2 ++ a.2 :: b.freeList)
          (a.2 :: ((live.map Prod.snd).erase a.2 ++ b.freeList)) := List.perm_middle
      have h2 : List.Perm ((a.2 :: (live.map Prod.snd).erase a.2) ++ b.freeList)
          (live.map Prod.snd ++ b.freeList) :=
        ((List.perm_cons_erase hsm).symm).append_right _
      exact h1.trans (h2.trans hperm)

/-- In every reachable state without a chained block, at most `N` objects
are live. -/
theorem reach_live_le {binfo : AllocInfo} {esz N : Nat} {st : PoolState}
    {live : List (Nat × Nat)} (h : Reach binfo esz N st live) (hb : st.blocks = 0) :
    live.length ≤ N := by
  obtain ⟨b, _, _, hcnt, hcur, _, _, hperm⟩ := reach_baseInv h hb
  have hlen := hperm.length_eq
  simp only [List.length_append, List.length_map, List.length_range] at hlen
  omega

/-- Step 1 of the spec's concrete slot-reuse scenario: base count 2, create
`B1`. -/
def c3s1 : ObjRef × PoolState := createObject .memPool ⟨1, 256⟩ (freshPool 1 2)

/-- Step 2: create `B2`, filling the base binding. -/
def c3s2 : ObjRef × PoolState := createObject .memPool ⟨1, 256⟩ c3s1.2

/-- Step 3: create `B3`, triggering chain growth with a new block. -/
def c3s3 : ObjRef × PoolState := createObject .memPool ⟨1, 256⟩ c3s2.2

/-- Step 4: destroy `B1`, freeing its slot in the base binding. -/
def c3s4 : PoolState := destroyObject .memPool false c3s3.2 (.slot 0 0)

/-- Step 5: create `B4`. -/
def c3s5 : ObjRef × PoolState := createObject .memPool ⟨1, 256⟩ c3s4

/-- C3 (amended): a create served while the base binding `memBindings[type][0]`
has freed slots pops that binding's free-list (LIFO; the most recently freed
base slot is handed out next and no block is created) — but a create is
served by the first binding in the chain with room, so the most recently
freed slot of a *later* binding is not the one returned; in every reachable
pool state with no chained block at most `N` objects are live; and in the
concrete scenario with base count 2 the addresses satisfy `B4 == B1` with no
block created by `B4`'s create. -/
theorem c3_pool_reuse (binfo : AllocInfo) (esz N : Nat) (st st2 : PoolState)
    (b0 : MemBinding) (s : Nat) (rest : List Nat) (live : List (Nat × Nat))
    (hb : st.bindings[0]? = some b0) (hf : b0.freeList = s :: rest)
    (hr : Reach binfo esz N st2 live) (hblocks : st2.blocks = 0) :
    ((createObject .memPool binfo st).1 = .slot 0 s ∧
      (createObject .memPool binfo st).2.blocks = st.blocks) ∧
    live.length ≤ N ∧
    (c3s1.1 = .slot 0 0 ∧ c3s2.1 = .slot 0 1 ∧ c3s3.1 = .slot 1 0 ∧
      c3s2.2.blocks = 0 ∧ c3s3.2.blocks = 1 ∧ c3s5.1 = .slot 0 0 ∧ c3s5.2.blocks = 1) := by
  obtain ⟨h1, h2, _⟩ := createObject_pops_base binfo st b0 s rest hb hf
  exact ⟨⟨h1, h2⟩, reach_live_le hr hblocks, by decide⟩

/-- C3 witness: the theorem applied at a concrete state whose base binding
has freed slot 0, and at the fresh pool with no live objects. -/
theorem c3_pool_reuse_witness :
    ((createObject .memPool ⟨1, 4⟩ ⟨[⟨1, 2, 2, [0], none⟩], 1, 2, 0, 0⟩).1 =
        ObjRef.slot 0 0 ∧
      (createObject .memPool ⟨1, 4⟩ ⟨[⟨1, 2, 2, [0], none⟩], 1, 2, 0, 0⟩).2.blocks =
        (⟨[⟨1, 2, 2, [0], none⟩], 1, 2, 0, 0⟩ : PoolState).blocks) ∧
    ([] : List (Nat × Nat)).length ≤ 2 ∧
    (c3s1.1 = .slot 0 0 ∧ c3s2.1 = .slot 0 1 ∧ c3s3.1 = .slot 1 0 ∧
      c3s2.2.blocks = 0 ∧ c3s3.2.blocks = 1 ∧ c3s5.1 = .slot 0 0 ∧ c3s5.2.blocks = 1) :=
  c3_pool_reuse ⟨1, 4⟩ 1 2 ⟨[⟨1, 2, 2, [0], none⟩], 1, 2, 0, 0⟩ (freshPool 1 2)
    ⟨1, 2, 2, [0], none⟩ 0 [] [] rfl rfl Reach.init rfl

/-! ## Context memory-pool creation

Translation of the configuration part of `lvn::createContextMemoryPool`
(levikno.cpp): the per-type default counts, the override loop over the
create-info's memory bindings (with the zero-count check), the construction
of the base pool, and the override loop over the block memory bindings.
Error reports through `LVN_CORE_ERROR` are counted. -/

/-- One `{ sType, count }` entry of the create-info's binding arrays. -/
structure BindingInfo where
  sType : Nat
  count : Nat
deriving Repr, DecidableEq

/-- The per-type default counts installed by
`setDefaultStructTypeMemAllocInfos`, indexed by `LvnStructureType`
(Undefined, Window, Logger, FrameBuffer, Shader, DescriptorLayout, Pipeline,
Buffer, Sampler, Texture, Cubemap, Sound, Socket). -/
def defaultCounts : List Nat := [0, 8, 8, 16, 32, 64, 64, 256, 256, 256, 256, 32, 32]

/-- The override loop over a binding array: a binding with `count == 0` logs
a configuration error and makes the call return `Lvn_Result_Failure` at once
(the remaining bindings are not visited); otherwise the type's count is
overridden and the loop continues.  Returns the updated table, the success
flag, and the number of error reports. -/
def applyBindings (tbl : List Nat) : List BindingInfo → List Nat × Bool × Nat
  | [] => (tbl, true, 0)
  | b :: rest =>
    if b.count = 0 then (tbl, false, 1)
    else applyBindings (tbl.set b.sType b.count) rest

/-- Observable outcome of `createContextMemoryPool`: the `LvnResult`, the
number of error reports, the base and block count tables, and whether the
base pool was built. -/
structure CtxOut where
  success : Bool
  errors : Nat
  sTypeCounts : List Nat
  blockCounts : List Nat
  poolCreated : Bool
deriving Repr, DecidableEq

/-- `lvn::createContextMemoryPool` (levikno.cpp): installs the defaults and
returns success at once in individual mode; otherwise overrides the base
counts (zero-count binding: error report and failure return), builds the
base memory block and the first binding of every type, then overrides the
block counts (zero-count binding: error report and failure return, after
the pool was already built).  The call never throws; failures surface as
the returned result code. -/
def createContextMemoryPool (individualMode : Bool)
    (memoryBindings blockMemoryBindings : List BindingInfo) : CtxOut :=
  if individualMode then ⟨true, 0, defaultCounts, defaultCounts, false⟩
  else
    let r1 := applyBindings defaultCounts memoryBindings
    if r1.2.1 = false then ⟨false, r1.2.2, r1.1, defaultCounts, false⟩
    else
      let r2 := applyBindings defaultCounts blockMemoryBindings
      if r2.2.1 = false then ⟨false, r2.2.2, r1.1, r2.1, true⟩
      else ⟨true, 0, r1.1, r2.1, true⟩

/-- C8 counterexample: a pool-mode configuration whose first memory binding
(for type Buffer, `sType = 7`) has `count == 0`, followed by a binding for
type Shader (`sType = 4`, count 5).  The call reports one error and returns
failure; the zero-count binding is not skipped: the loop stops, the Shader
binding is never applied (its count stays at the default 32), and no pool is
built — context creation fails instead of continuing. -/
theorem c8_counterexample :
    (createContextMemoryPool false [⟨7, 0⟩, ⟨4, 5⟩] []).success = false ∧
    (createContextMemoryPool false [⟨7, 0⟩, ⟨4, 5⟩] []).errors = 1 ∧
    (createContextMemoryPool false [⟨7, 0⟩, ⟨4, 5⟩] []).sTypeCounts.getD 4 0 = 32 ∧
    (createContextMemoryPool false [⟨7, 0⟩, ⟨4, 5⟩] []).poolCreated = false := by
  decide

/-- The override loop fails with exactly one error report when some binding
has a zero count. -/
theorem applyBindings_zero (l : List BindingInfo) :
    ∀ tbl, (∃ b ∈ l, b.count = 0) →
      (applyBindings tbl l).2.1 = false ∧ (applyBindings tbl l).2.2 = 1 := by
  induction l with
  | nil => intro tbl h; simp at h
  | cons b rest ih =>
    intro tbl h
    by_cases hb : b.count = 0
    · simp [applyBindings, hb]
    · have hrest : ∃ x ∈ rest, x.count = 0 := by
        obtain ⟨x, hx, hx0⟩ := h
        rcases List.mem_cons.mp hx with h1 | h1
        · exact absurd (h1 ▸ hx0) hb
        · exact ⟨x, h1, hx0⟩
      simpa [applyBindings, hb] using ih (tbl.set b.sType b.count) hrest

/-- C8 (amended): a pool-mode configuration containing a memory binding with
`count == 0` is reported through the error-logging channel (exactly one
report, for the first such binding) and makes `createContextMemoryPool`
return `Lvn_Result_Failure` — a sentinel result, not an exception — and
`createContext` then aborts context creation; the offending binding is not
skipped. -/
theorem c8_zero_count_binding (mb bb : List BindingInfo)
    (h : ∃ b ∈ mb, b.count = 0) :
    (createContextMemoryPool false mb bb).success = false ∧
    (createContextMemoryPool false mb bb).errors = 1 := by
  obtain ⟨h1, h2⟩ := applyBindings_zero mb defaultCounts h
  simp [createContextMemoryPool, h1, h2]

/-- C8 witness: the concrete failing configuration run through the
theorem. -/
theorem c8_zero_count_binding_witness :
    (∃ b ∈ [(⟨7, 0⟩ : BindingInfo), ⟨4, 5⟩], b.count = 0) ∧
    ((createContextMemoryPool false [⟨7, 0⟩, ⟨4, 5⟩] []).success = false ∧
      (createContextMemoryPool false [⟨7, 0⟩, ⟨4, 5⟩] []).errors = 1) :=
  ⟨⟨⟨7, 0⟩, by decide, rfl⟩, c8_zero_count_binding [⟨7, 0⟩, ⟨4, 5⟩] []
    ⟨⟨7, 0⟩, by decide, rfl⟩⟩

end Levikno
